import Mathlib

/-!
Verification of the ScholarAI search core (src/main.py): the scoring
normalizer, the abstract reconstructor, the result projector, the hybrid
ranker, the LLM provider selector, and the citation formatters.

Modelling conventions:
* Python numbers are exact rationals (`ℚ`); years are integers (`ℤ`).
  Binary floating-point representation effects are abstracted away.
* Python strings are `String`, except in the abstract reconstructor and the
  snippet helper, where they are modelled as `List Char` to reason about
  joining and re-splitting on spaces.
* A Python dict read through `.get` is a structure whose optional fields are
  `Option`-typed: `none` stands for an absent key (or a null value wherever
  the code collapses the two through an `or` default or a falsiness test).
  The one place where absent and null behave differently — the
  `open_access` value, which the code reads with `.get("open_access", ...)`
  followed by a second `.get` that raises on `None` — is modelled as
  `Option (Option OpenAccessObj)`.
* Fallible code returns `Except String`; the network probe of the local LLM
  provider is an explicit input (its response, or `none` for any failure).
-/

namespace ScholarAI

/-- Python's round-half-to-even of a rational to an integer, as the builtin
`round` behaves on exact values (float representation error is abstracted). -/
def roundHalfEven (q : ℚ) : ℤ :=
  if q - ⌊q⌋ < 1 / 2 then ⌊q⌋
  else if 1 / 2 < q - ⌊q⌋ then ⌊q⌋ + 1
  else if ⌊q⌋ % 2 = 0 then ⌊q⌋ else ⌊q⌋ + 1

/-- Python `round(q, n)`: round to `n` decimal places, half to even. -/
def pyround (q : ℚ) (n : ℕ) : ℚ :=
  (roundHalfEven (q * 10 ^ n) : ℚ) / 10 ^ n

/-- Python `s or default` on an optional string: an absent, null or empty
string is falsy and yields the default. -/
def pyOrStr (v : Option String) (d : String) : String :=
  match v with
  | some s => if s = "" then d else s
  | none => d

/-- `normalize` from src/main.py (lines 146-149): 0 when either argument is
falsy (`none` models Python `None`/an absent value; numeric 0 is falsy),
otherwise the ratio. -/
def normalize (value max_value : Option ℚ) : ℚ :=
  match value, max_value with
  | some v, some m => if v = 0 ∨ m = 0 then 0 else v / m
  | _, _ => 0

/-- Python's `sep.join` restricted to a one-character separator, on strings
modelled as character lists. -/
def joinWith (sep : List Char) : List (List Char) → List Char
  | [] => []
  | [w] => w
  | w :: ws => w ++ sep ++ joinWith sep ws

/-- Python's `s.split(sep)` for a one-character separator, on strings
modelled as character lists: never returns `[]`, and the empty string
splits to `[[]]`. -/
def splitChar (sep : Char) : List Char → List (List Char)
  | [] => [[]]
  | c :: cs =>
    match splitChar sep cs with
    | r :: rs => if c = sep then [] :: r :: rs else (c :: r) :: rs
    | [] => [[c]]

/-- Code-point lexicographic `≤` on character lists: how Python compares the
string components when it sorts `(position, word)` tuples. -/
def lexLe : List Char → List Char → Bool
  | [], _ => true
  | _ :: _, [] => false
  | a :: as, b :: bs => if a = b then lexLe as bs else decide (a < b)

/-- Python tuple comparison on `(position, word)` pairs, as `list.sort()`
orders them: by position first, by word on equal positions. -/
def pairLe (x y : ℕ × List Char) : Bool :=
  if x.1 = y.1 then lexLe x.2 y.2 else decide (x.1 < y.1)

/-- An inverted abstract index: an insertion-ordered association list from
word to its occurrence positions (Python dict iteration order is insertion
order). -/
abbrev InvIndex := List (List Char × List ℕ)

/-- The flattening loop of `reconstruct_abstract`: one `(position, word)`
pair per occurrence, in iteration order. -/
def wordPositions (inv : InvIndex) : List (ℕ × List Char) :=
  inv.flatMap fun wp => wp.2.map fun pos => (pos, wp.1)

/-- `reconstruct_abstract` from src/main.py (lines 152-160): an absent or
empty index gives the empty string; otherwise flatten the index to
`(position, word)` pairs, sort them (Python sorts the tuples: position
first, word on ties) and join the words with single spaces. `mergeSort`
models Python's stable sort; `pairLe` is antisymmetric, so ties are
immaterial. -/
def reconstruct_abstract : Option InvIndex → List Char
  | none => []
  | some inv =>
    if inv = [] then []
    else joinWith [' '] (((wordPositions inv).mergeSort pairLe).map Prod.snd)

/-- Index of the last occurrence of `c`, Python's `s.rfind(c)` (as an
`Option` instead of the -1 sentinel). -/
def rfindIdx (c : Char) : List Char → Option ℕ
  | [] => none
  | a :: as =>
    match rfindIdx c as with
    | some i => some (i + 1)
    | none => if a = c then some 0 else none

/-- The whitespace characters Python's `str.strip()` removes. -/
def pyIsSpace (c : Char) : Bool :=
  [' ', '\t', '\n', '\r', '\x0b', '\x0c'].contains c

/-- Python `s.strip()`. -/
def pyStrip (l : List Char) : List Char :=
  ((l.dropWhile pyIsSpace).reverse.dropWhile pyIsSpace).reverse

/-- `get_snippet` from src/main.py (lines 163-170): first `max_chars`
characters, cut back to the last period when one exists, then stripped.
The call site uses the default budget of 500. -/
def get_snippet (text : List Char) (max_chars : ℕ) : List Char :=
  if text = [] then []
  else
    let snippet := text.take max_chars
    match rfindIdx '.' snippet with
    | some i => pyStrip (snippet.take (i + 1))
    | none => pyStrip snippet

/-- The nested `source` object of a primary location. -/
structure SourceInfo where
  display_name : Option String := none
  host_organization_name : Option String := none

/-- The nested `primary_location` object. -/
structure PrimaryLocation where
  source : Option SourceInfo := none

/-- The nested `author` object of an authorship. -/
structure AuthorObj where
  display_name : Option String := none
  id : Option String := none
  orcid : Option String := none

/-- One entry of the raw `authorships` list. -/
structure Authorship where
  author : Option AuthorObj := none

/-- One entry of the raw `concepts` list. -/
structure ConceptObj where
  display_name : Option String := none
  score : Option ℚ := none

/-- The nested `open_access` object. -/
structure OpenAccessObj where
  is_oa : Option Bool := none
  oa_url : Option String := none

/-- A raw work item as the code consumes it. Numeric fields the code reads
with a numeric default collapse an absent key to that default; the
`open_access` field keeps absent (`none`) and null (`some none`) apart,
because the code treats them differently (see `openAccess_is_oa`). -/
structure RawItem where
  relevance_score : Option ℚ := none
  cited_by_count : ℚ := 0
  publication_year : ℤ := 0
  primary_location : Option PrimaryLocation := none
  open_access : Option (Option OpenAccessObj) := none
  authorships : Option (List Authorship) := none
  concepts : Option (List ConceptObj) := none
  abstract_inverted_index : Option InvIndex := none
  id : String := ""
  doi : Option String := none
  title : Option String := none
  type : String := ""

/-- A projected author entry of the normalized record. -/
structure AuthorOut where
  name : String
  id : String
  orcid : String
deriving DecidableEq

/-- A projected concept entry of the normalized record. -/
structure ConceptOut where
  name : String
  score : ℚ
deriving DecidableEq

/-- `safe_journal_info` from src/main.py (lines 173-178): every nested access
treats an absent or null object as empty, and falsy display names fall back
to the documented defaults. -/
def safe_journal_info (item : RawItem) : String × String :=
  let source := (item.primary_location.getD {}).source.getD {}
  (pyOrStr source.display_name "Unknown Journal",
    pyOrStr source.host_organization_name "Unknown Publisher")

/-- `extract_authors` from src/main.py (lines 181-195): of the first
`max_authors` authorships keep those with a truthy display name, then append
a synthetic overflow entry when the raw count exceeds the cap. -/
def extract_authors (item : RawItem) (max_authors : ℕ) : List AuthorOut :=
  let authorships := item.authorships.getD []
  let authors := (authorships.take max_authors).filterMap fun a =>
    let author := a.author.getD {}
    match author.display_name with
    | some name =>
      if name = "" then none
      else some ⟨name, author.id.getD "", author.orcid.getD ""⟩
    | none => none
  if max_authors < authorships.length then
    authors ++
      [⟨"+" ++ toString (authorships.length - max_authors) ++ " more", "", ""⟩]
  else authors

/-- The projection one kept concept undergoes: name default, score rounded to
2 decimals. -/
def projConcept (c : ConceptObj) : ConceptOut :=
  ⟨c.display_name.getD "", pyround (c.score.getD 0) 2⟩

/-- `extract_concepts` from src/main.py (lines 198-204). The comprehension
iterates over `concepts[:max_concepts]`: the code truncates to the first
`max_concepts` concepts BEFORE filtering on score > 0.3. -/
def extract_concepts (item : RawItem) (max_concepts : ℕ) : List ConceptOut :=
  (((item.concepts.getD []).take max_concepts).filter fun c =>
    decide (0.3 < c.score.getD 0)).map projConcept

/-- The citation component of `build_paper_result` (src/main.py line 294):
`normalize(citations, max_citations) if max_citations else 0`. -/
def citation_score (item : RawItem) (max_citations : ℚ) : ℚ :=
  if max_citations ≠ 0 then
    normalize (some item.cited_by_count) (some max_citations)
  else 0

/-- The recency component of `build_paper_result` (src/main.py lines
295-296): the year range is floored at 1, and a falsy publication year
scores 0. -/
def recency_score (item : RawItem) (start_year end_year : ℤ) : ℚ :=
  let year_range : ℤ := max (end_year - start_year) 1
  if item.publication_year ≠ 0 then
    normalize (some ((item.publication_year : ℚ) - (start_year : ℚ)))
      (some (year_range : ℚ))
  else 0

/-- The unrounded hybrid score of `build_paper_result` (src/main.py lines
298-302); a missing relevance score defaults to 0. -/
def final_score (item : RawItem) (start_year end_year : ℤ)
    (max_citations : ℚ) : ℚ :=
  item.relevance_score.getD 0 * 0.5 +
    citation_score item max_citations * 0.3 +
    recency_score item start_year end_year * 0.2

/-- The normalized paper record `build_paper_result` returns. The Scopus
search link (plain URL string building around urllib quoting) is not
consumed by any verified property and is omitted. -/
structure Paper where
  id : String
  title : String
  year : ℤ
  authors : List AuthorOut
  journal : String
  publisher : String
  citations : ℚ
  open_access : Bool
  oa_url : String
  doi : String
  abstract : List Char
  summary : List Char
  concepts : List ConceptOut
  type : String
  score : ℚ
deriving DecidableEq

/-- The code reads `item.get("open_access", dict()).get("is_oa", False)`: an
absent key defaults to an empty dict and the inner access yields `False`,
but a present null reaches `None.get`, which raises `AttributeError` —
modelled as `Except.error`. -/
def openAccess_is_oa (item : RawItem) : Except String Bool :=
  match item.open_access with
  | none => .ok false
  | some none => .error "AttributeError: NoneType object has no attribute get"
  | some (some oa) => .ok (oa.is_oa.getD false)

/-- `item.get("open_access", dict()).get("oa_url", "")`, with the same
raising behaviour on a null `open_access` value. -/
def openAccess_oa_url (item : RawItem) : Except String String :=
  match item.open_access with
  | none => .ok ""
  | some none => .error "AttributeError: NoneType object has no attribute get"
  | some (some oa) => .ok (oa.oa_url.getD "")

/-- The result dict of `build_paper_result` (src/main.py lines 319-336),
given the two values the `open_access` accesses produced. -/
def projectPaper (item : RawItem) (start_year end_year : ℤ)
    (max_citations : ℚ) (oa : Bool) (oaUrl : String) : Paper :=
  let abstract_raw := reconstruct_abstract item.abstract_inverted_index
  let snippet := get_snippet abstract_raw 500
  { id := item.id
    title := pyOrStr item.title ""
    year := item.publication_year
    authors := extract_authors item 5
    journal := (safe_journal_info item).1
    publisher := (safe_journal_info item).2
    citations := item.cited_by_count
    open_access := oa
    oa_url := oaUrl
    doi := pyOrStr item.doi ""
    abstract := abstract_raw
    summary := if snippet = [] then "No abstract available.".toList else snippet
    concepts := extract_concepts item 5
    type := item.type
    score := pyround (final_score item start_year end_year max_citations) 4 }

/-- `build_paper_result` from src/main.py (lines 289-336). Python evaluates
the `open_access` accesses while building the result dict; they are the one
point of the projector that can raise, hence the `Except`. -/
def build_paper_result (item : RawItem) (start_year end_year : ℤ)
    (max_citations : ℚ) : Except String Paper := do
  let oa ← openAccess_is_oa item
  let oaUrl ← openAccess_oa_url item
  pure (projectPaper item start_year end_year max_citations oa oaUrl)

/-- Python `max` over a list; the search endpoint only reaches it with a
non-empty batch (src/main.py line 425 returns early on an empty page). -/
def listMax : List ℚ → ℚ
  | [] => 0
  | h :: t => t.foldl max h

/-- The batch-relative citation maximum of src/main.py line 435:
`max(cited_by_count over the page) or 1` — a zero maximum is floored to 1. -/
def batch_max_citations (papers : List RawItem) : ℚ :=
  if listMax (papers.map (·.cited_by_count)) = 0 then 1
  else listMax (papers.map (·.cited_by_count))

/-- The descending-score comparison `list.sort(key=..., reverse=True)` uses:
`scoreGe a b` holds when `a` may stay before `b`. Equal scores compare true
both ways, and the stable sort then keeps the original order. -/
def scoreGe (a b : Paper) : Bool := decide (b.score ≤ a.score)

/-- Lines 435-445 of src/main.py, the ranking core of the search endpoint:
compute the batch citation maximum, build every record (in provider order),
and re-sort locally — stably, by descending hybrid score — only when the
requested mode is "relevance". The endpoint returns a prefix (`[:limit]`) of
this list. -/
def rank_results (papers : List RawItem) (start_year end_year : ℤ)
    (sort_by : String) : Except String (List Paper) := do
  let ranked ← papers.mapM
    (build_paper_result · start_year end_year (batch_max_citations papers))
  pure (if sort_by = "relevance" then ranked.mergeSort scoreGe else ranked)

/-- Python `s.split(":")[0]`: a model name with any colon-suffixed tag
stripped (`splitChar` embeds single-character `str.split`). -/
def stripTag (s : String) : String :=
  String.mk ((splitChar ':' s.data).headD [])

/-- `check_ollama_available` from src/main.py (lines 476-485). The network
probe is an input: `none` models a request exception or a non-200 status,
`some names` a 200 response listing models with those names. The code strips
the colon tag from the configured model AND from each listed name before
comparing. -/
def check_ollama_available (ollama_model : String)
    (probe : Option (List String)) : Bool :=
  match probe with
  | none => false
  | some names => (names.map stripTag).contains (stripTag ollama_model)

/-- `get_active_llm_provider` from src/main.py (lines 488-499): the pure
per-call provider decision, over the configured mode, the remote credential,
the configured local model and the probe outcome. -/
def get_active_llm_provider (llm_provider openai_api_key ollama_model : String)
    (probe : Option (List String)) : Option String :=
  if llm_provider = "openai" ∧ openai_api_key ≠ "" then some "openai"
  else if llm_provider = "ollama" then some "ollama"
  else if check_ollama_available ollama_model probe then some "ollama"
  else if openai_api_key ≠ "" then some "openai"
  else none

/-- Python's `in` on strings: `pat` occurs contiguously in the list. -/
def subList (pat : List Char) : List Char → Bool
  | [] => pat.isEmpty
  | c :: cs => pat.isPrefixOf (c :: cs) || subList pat cs

/-- Python's `pat in s` on strings. -/
def pyIn (pat s : String) : Bool := subList pat.toList s.toList

/-- A paper dict as the citation formatters read it (absent keys are
`none`; the code supplies a default at each access). -/
structure CitePaper where
  authors : List AuthorOut := []
  doi : Option String := none
  title : Option String := none
  journal : Option String := none
  publisher : Option String := none
  year : Option ℤ := none

/-- The author-name comprehension both formatters share (src/main.py lines
215 and 233): keep names that are truthy and do not contain "more". -/
def citedAuthorNames (authors : List AuthorOut) : List String :=
  (authors.filter fun a => a.name != "" && !pyIn "more" a.name).map (·.name)

/-- Python's `sep.join(parts)`. -/
def pyJoin (sep : String) : List String → String
  | [] => ""
  | [w] => w
  | w :: ws => w ++ sep ++ pyJoin sep ws

/-- `format_bibtex` from src/main.py (lines 214-228); literal braces of the
BibTeX output are written as their escapes. The key's `[:20]` slice and the
space-to-underscore `replace` act on single characters, embedded on the
character list. -/
def format_bibtex (paper : CitePaper) : String :=
  let author_str := pyJoin " and " (citedAuthorNames paper.authors)
  let doi := pyOrStr paper.doi ""
  let key :=
    if doi ≠ "" then String.mk ((splitChar '/' doi.data).getLastD [])
    else String.mk (((paper.title.getD "unknown").data.take 20).map
      fun c => if c = ' ' then '_' else c)
  let year := match paper.year with | some y => toString y | none => ""
  "@article\x7b" ++ key ++ ",\n" ++
    "  title = \x7b" ++ paper.title.getD "" ++ "\x7d,\n" ++
    "  author = \x7b" ++ author_str ++ "\x7d,\n" ++
    "  journal = \x7b" ++ paper.journal.getD "" ++ "\x7d,\n" ++
    "  year = \x7b" ++ year ++ "\x7d,\n" ++
    "  doi = \x7b" ++ doi ++ "\x7d,\n" ++
    "  publisher = \x7b" ++ paper.publisher.getD "" ++ "\x7d\n" ++
    "\x7d\n"

/-- `format_apa` from src/main.py (lines 231-249). -/
def format_apa (paper : CitePaper) : String :=
  let names := citedAuthorNames paper.authors
  let author_str :=
    if names.length = 0 then "Unknown"
    else if names.length = 1 then names.headD ""
    else if names.length = 2 then names.headD "" ++ " & " ++ names.getD 1 ""
    else pyJoin ", " names.dropLast ++ ", & " ++ names.getLastD ""
  let year := match paper.year with | some y => toString y | none => "n.d."
  let citation := author_str ++ " (" ++ year ++ "). " ++
    paper.title.getD "" ++ ". *" ++ paper.journal.getD "" ++ "*."
  let doi := paper.doi.getD ""
  if doi ≠ "" then citation ++ " " ++ doi else citation

/-! Concrete fixtures the theorems below instantiate. -/

/-- An authorship whose author carries the given display name. -/
def mkAuthorship (n : String) : Authorship :=
  { author := some { display_name := some n } }

/-- A raw item scoring 1 on every component of the hybrid score in the
window 2020-2025 with batch maximum 10. -/
def itemPerfect : RawItem :=
  { relevance_score := some 1, cited_by_count := 10, publication_year := 2025 }

/-- A raw item published before the window's start year. -/
def itemEarly : RawItem := { publication_year := 2019 }

/-- A raw item inside the window 2020-2025, with 10 citations. -/
def itemMid : RawItem := { cited_by_count := 10, publication_year := 2021 }

/-- A raw item with six concepts of which five qualify (score > 0.3), the
non-qualifying one first. -/
def itemSixConcepts : RawItem :=
  { concepts := some [⟨some "c0", some 0.1⟩, ⟨some "c1", some 0.9⟩,
      ⟨some "c2", some 0.9⟩, ⟨some "c3", some 0.9⟩,
      ⟨some "c4", some 0.9⟩, ⟨some "c5", some 0.9⟩] }

/-- A raw item whose `open_access` key is present but null. -/
def itemNullOA : RawItem := { open_access := some none }

/-- A raw item whose primary location is present but carries no source. -/
def itemNoSource : RawItem := { primary_location := some { source := none } }

/-- A raw item with seven named authors. -/
def item7Authors : RawItem :=
  { authorships := some (["A1", "A2", "A3", "A4", "A5", "A6", "A7"].map mkAuthorship) }

/-- A raw item carrying only a relevance score and an id: its hybrid score
is relevance * 0.5. -/
def itemRel (q : ℚ) (pid : String) : RawItem :=
  { relevance_score := some q, id := pid }

/-- A citation-formatter input with a genuine author whose name contains
the substring "more". -/
def paperSeymore : CitePaper :=
  { authors := [⟨"Seymore Papert", "", ""⟩, ⟨"Alan Kay", "", ""⟩],
    title := some "Mindstorms", journal := some "J",
    publisher := some "P", year := some 1980 }


/-! Helper lemmas and the claim theorems. -/

/-- Splitting on a separator never yields the empty list of parts. -/
lemma splitChar_ne_nil (sep : Char) (l : List Char) : splitChar sep l ≠ [] := by
  cases l with
  | nil => simp [splitChar]
  | cons c cs =>
    simp only [splitChar]
    split
    · split <;> simp
    · simp

/-- Prepending separator-free characters extends the first part of a split. -/
lemma splitChar_append (sep : Char) (w l : List Char) (hw : sep ∉ w)
    (r : List Char) (rs : List (List Char)) (h : splitChar sep l = r :: rs) :
    splitChar sep (w ++ l) = (w ++ r) :: rs := by
  induction w with
  | nil => simpa using h
  | cons c cs ih =>
    have hc : ¬(c = sep) := by
      intro e
      exact hw (by simp [e])
    have ih2 := ih fun hm => hw (List.mem_cons_of_mem _ hm)
    simp only [List.cons_append, splitChar, List.append_eq, ih2]
    rw [if_neg hc]

/-- Re-splitting a single-space join of separator-free words recovers the words. -/
lemma splitChar_joinWith (sep : Char) (ws : List (List Char)) (hne : ws ≠ [])
    (hw : ∀ w ∈ ws, sep ∉ w) :
    splitChar sep (joinWith [sep] ws) = ws := by
  induction ws with
  | nil => exact absurd rfl hne
  | cons w ws ih =>
    cases ws with
    | nil =>
      have h0 : splitChar sep ([] : List Char) = [] :: [] := rfl
      have h1 := splitChar_append sep w [] (hw w (by simp)) [] [] h0
      simpa [joinWith] using h1
    | cons v vs =>
      have hrest := ih (by simp) fun u hu => hw u (List.mem_cons_of_mem _ hu)
      have h2 : splitChar sep (sep :: joinWith [sep] (v :: vs)) = [] :: v :: vs := by
        simp only [splitChar, hrest]
        simp
      have h3 := splitChar_append sep w (sep :: joinWith [sep] (v :: vs))
        (hw w (by simp)) [] (v :: vs) h2
      have hj : joinWith [sep] (w :: v :: vs) = w ++ sep :: joinWith [sep] (v :: vs) := by
        simp [joinWith]
      rw [hj, h3]
      simp

/-- Code-point lexicographic comparison is total. -/
lemma lexLe_total (a b : List Char) : lexLe a b || lexLe b a := by
  induction a generalizing b with
  | nil => simp [lexLe]
  | cons x xs ih =>
    cases b with
    | nil => simp [lexLe]
    | cons y ys =>
      by_cases hxy : x = y
      · subst hxy
        simp only [lexLe, if_pos rfl]
        exact ih ys
      · simp only [lexLe, if_neg hxy, if_neg (Ne.symm hxy)]
        rcases lt_or_gt_of_ne hxy with h | h
        · simp [h]
        · simp [h]

/-- Code-point lexicographic comparison is transitive. -/
lemma lexLe_trans {a b c : List Char} (h1 : lexLe a b) (h2 : lexLe b c) :
    lexLe a c := by
  induction a generalizing b c with
  | nil => simp [lexLe]
  | cons x xs ih =>
    cases b with
    | nil => simp [lexLe] at h1
    | cons y ys =>
      cases c with
      | nil => simp [lexLe] at h2
      | cons z zs =>
        by_cases hxy : x = y <;> by_cases hyz : y = z
        · subst hxy
          subst hyz
          simp only [lexLe, if_pos rfl] at h1 h2 ⊢
          exact ih h1 h2
        · subst hxy
          simp only [lexLe, if_neg hyz] at h2 ⊢
          exact h2
        · subst hyz
          simp only [lexLe, if_neg hxy] at h1 ⊢
          exact h1
        · simp only [lexLe, if_neg hxy] at h1
          simp only [lexLe, if_neg hyz] at h2
          have hxz : x < z := lt_trans (of_decide_eq_true h1) (of_decide_eq_true h2)
          simp only [lexLe, if_neg (ne_of_lt hxz)]
          exact decide_eq_true hxz

/-- Python tuple comparison on (position, word) pairs is total. -/
lemma pairLe_total (x y : ℕ × List Char) : pairLe x y || pairLe y x := by
  by_cases h : x.1 = y.1
  · simp only [pairLe, if_pos h, if_pos h.symm]
    exact lexLe_total _ _
  · simp only [pairLe, if_neg h, if_neg (Ne.symm h)]
    rcases lt_or_gt_of_ne h with hlt | hgt
    · simp [hlt]
    · simp [hgt]

/-- Python tuple comparison on (position, word) pairs is transitive. -/
lemma pairLe_trans (x y z : ℕ × List Char) (h1 : pairLe x y) (h2 : pairLe y z) :
    pairLe x z := by
  by_cases hxy : x.1 = y.1 <;> by_cases hyz : y.1 = z.1
  · have hxz : x.1 = z.1 := hxy.trans hyz
    simp only [pairLe, if_pos hxy, if_pos hyz, if_pos hxz] at h1 h2 ⊢
    exact lexLe_trans h1 h2
  · have hxz : ¬x.1 = z.1 := by rw [hxy]; exact hyz
    simp only [pairLe, if_pos hxy, if_neg hyz, if_neg hxz] at h1 h2 ⊢
    rw [hxy]
    exact h2
  · have hlt : x.1 < y.1 := by
      have := h1
      simp only [pairLe, if_neg hxy] at this
      exact of_decide_eq_true this
    have hxz : ¬x.1 = z.1 := by rw [← hyz]; exact ne_of_lt hlt
    simp only [pairLe, if_neg hxz]
    rw [← hyz]
    exact decide_eq_true hlt
  · have hlt1 : x.1 < y.1 := by
      have := h1
      simp only [pairLe, if_neg hxy] at this
      exact of_decide_eq_true this
    have hlt2 : y.1 < z.1 := by
      have := h2
      simp only [pairLe, if_neg hyz] at this
      exact of_decide_eq_true this
    have hxz : x.1 < z.1 := lt_trans hlt1 hlt2
    simp only [pairLe, if_neg (Nat.ne_of_lt hxz)]
    exact decide_eq_true hxz

/-- The descending-score comparison is transitive. -/
lemma scoreGe_trans (a b c : Paper) (h1 : scoreGe a b) (h2 : scoreGe b c) :
    scoreGe a c := by
  simp only [scoreGe, decide_eq_true_eq] at h1 h2 ⊢
  exact le_trans h2 h1

/-- The descending-score comparison is total. -/
lemma scoreGe_total (a b : Paper) : scoreGe a b || scoreGe b a := by
  simp only [scoreGe, Bool.or_eq_true, decide_eq_true_eq]
  exact le_total b.score a.score

/-- C1: the hybrid score attached to every built paper record equals
relevance * 0.5 + citation_score * 0.3 + recency_score * 0.2 rounded to 4
decimal places, where relevance defaults to 0 when the provider supplies no
relevance score; in particular relevance = citation_score = recency_score = 1
yields an attached score of exactly 1. -/
theorem C1_hybrid_score :
    (∀ (item : RawItem) (sy ey : ℤ) (mc : ℚ) (p : Paper),
      build_paper_result item sy ey mc = .ok p →
      p.score = pyround (item.relevance_score.getD 0 * 0.5 +
        citation_score item mc * 0.3 + recency_score item sy ey * 0.2) 4) ∧
    (∀ (item : RawItem) (sy ey : ℤ) (mc : ℚ),
      final_score { item with relevance_score := none } sy ey mc =
        0 * 0.5 + citation_score item mc * 0.3 + recency_score item sy ey * 0.2) ∧
    citation_score itemPerfect 10 = 1 ∧
    recency_score itemPerfect 2020 2025 = 1 ∧
    itemPerfect.relevance_score = some 1 ∧
    (build_paper_result itemPerfect 2020 2025 10).toOption.map Paper.score = some 1 := by
  refine ⟨?_, fun item sy ey mc => rfl, ?_, ?_, rfl, ?_⟩
  · intro item sy ey mc p hp
    match hoa : item.open_access with
    | none =>
      have h1 : openAccess_is_oa item = .ok false := by
        rw [openAccess_is_oa, hoa]
      have h2 : openAccess_oa_url item = .ok "" := by
        rw [openAccess_oa_url, hoa]
      rw [build_paper_result, h1, h2] at hp
      cases hp
      rfl
    | some none =>
      have h1 : openAccess_is_oa item = .error "AttributeError: NoneType object has no attribute get" := by
        rw [openAccess_is_oa, hoa]
      rw [build_paper_result, h1] at hp
      exact absurd hp (by simp [Bind.bind, Except.bind])
    | some (some oa) =>
      have h1 : openAccess_is_oa item = .ok (oa.is_oa.getD false) := by
        rw [openAccess_is_oa, hoa]
      have h2 : openAccess_oa_url item = .ok (oa.oa_url.getD "") := by
        rw [openAccess_oa_url, hoa]
      rw [build_paper_result, h1, h2] at hp
      cases hp
      rfl
  · norm_num [citation_score, normalize, itemPerfect]
  · norm_num [recency_score, normalize, itemPerfect, max_def]
  · have : build_paper_result itemPerfect 2020 2025 10 =
        .ok (projectPaper itemPerfect 2020 2025 10 false "") := rfl
    rw [this]
    have hs : pyround (final_score itemPerfect 2020 2025 10) 4 = 1 := by
      norm_num [final_score, citation_score, recency_score, normalize, itemPerfect,
        max_def, pyround, roundHalfEven]
    show some (pyround (final_score itemPerfect 2020 2025 10) 4) = some 1
    rw [hs]

/-- C2: in "relevance" mode the returned records are a stable descending
sort of the built batch by final score (permutation + descending order +
every correctly-ordered pair of the provider order is preserved, so equal
scores keep provider order); in every other sort mode the returned order is
exactly the upstream provider order with the hybrid score computed and
attached but never used to re-sort. The concrete batch with scores
0.3, 0.9, 0.9 sorts to b, c, a: the two tied 0.9 records keep their
original relative order. -/
theorem C2_sort_policy :
    (∀ (papers : List RawItem) (sy ey : ℤ) (mode : String), mode ≠ "relevance" →
      rank_results papers sy ey mode =
        papers.mapM (build_paper_result · sy ey (batch_max_citations papers))) ∧
    (∀ (papers : List RawItem) (sy ey : ℤ) (ranked : List Paper),
      rank_results papers sy ey "relevance" = .ok ranked →
      ∃ base,
        papers.mapM (build_paper_result · sy ey (batch_max_citations papers)) =
          .ok base ∧
        ranked.Perm base ∧
        ranked.Pairwise (fun a b => b.score ≤ a.score) ∧
        (∀ a b : Paper, List.Sublist [a, b] base → b.score ≤ a.score →
          List.Sublist [a, b] ranked)) ∧
    rank_results [itemRel 0.6 "a", itemRel 1.8 "b", itemRel 1.8 "c"] 2020 2025
        "citations" =
      .ok [projectPaper (itemRel 0.6 "a") 2020 2025 1 false "",
        projectPaper (itemRel 1.8 "b") 2020 2025 1 false "",
        projectPaper (itemRel 1.8 "c") 2020 2025 1 false ""] ∧
    rank_results [itemRel 0.6 "a", itemRel 1.8 "b", itemRel 1.8 "c"] 2020 2025
        "relevance" =
      .ok [projectPaper (itemRel 1.8 "b") 2020 2025 1 false "",
        projectPaper (itemRel 1.8 "c") 2020 2025 1 false "",
        projectPaper (itemRel 0.6 "a") 2020 2025 1 false ""] ∧
    (projectPaper (itemRel 0.6 "a") 2020 2025 1 false "").score = 0.3 ∧
    (projectPaper (itemRel 1.8 "b") 2020 2025 1 false "").score = 0.9 ∧
    (projectPaper (itemRel 1.8 "c") 2020 2025 1 false "").score = 0.9 ∧
    (projectPaper (itemRel 0.6 "a") 2020 2025 1 false "").id = "a" ∧
    (projectPaper (itemRel 1.8 "b") 2020 2025 1 false "").id = "b" ∧
    (projectPaper (itemRel 1.8 "c") 2020 2025 1 false "").id = "c" := by
  have sa : (projectPaper (itemRel 0.6 "a") 2020 2025 1 false "").score = 0.3 := by
    norm_num [projectPaper, final_score, citation_score, recency_score, normalize,
      itemRel, pyround, roundHalfEven]
  have sb : (projectPaper (itemRel 1.8 "b") 2020 2025 1 false "").score = 0.9 := by
    norm_num [projectPaper, final_score, citation_score, recency_score, normalize,
      itemRel, pyround, roundHalfEven]
  have sc : (projectPaper (itemRel 1.8 "c") 2020 2025 1 false "").score = 0.9 := by
    norm_num [projectPaper, final_score, citation_score, recency_score, normalize,
      itemRel, pyround, roundHalfEven]
  refine ⟨?_, ?_, rfl, ?_, sa, sb, sc, rfl, rfl, rfl⟩
  · intro papers sy ey mode h
    simp only [rank_results]
    cases hm : papers.mapM (build_paper_result · sy ey (batch_max_citations papers)) with
    | error e => rfl
    | ok l =>
      show Except.ok (if mode = "relevance" then l.mergeSort scoreGe else l) = Except.ok l
      rw [if_neg h]
  · intro papers sy ey ranked h
    simp only [rank_results] at h
    cases hm : papers.mapM (build_paper_result · sy ey (batch_max_citations papers)) with
    | error e =>
      rw [hm] at h
      exact Except.noConfusion h
    | ok base =>
      rw [hm] at h
      replace h : Except.ok (if ("relevance" : String) = "relevance" then
          base.mergeSort scoreGe else base) = Except.ok ranked := h
      rw [if_pos rfl] at h
      cases h
      refine ⟨base, rfl, List.mergeSort_perm base scoreGe, ?_, ?_⟩
      · exact (List.sorted_mergeSort scoreGe_trans scoreGe_total base).imp
          fun hab => of_decide_eq_true hab
      · intro a b hsub hge
        exact List.pair_sublist_mergeSort scoreGe_trans scoreGe_total
          (decide_eq_true hge) hsub
  · show Except.ok (List.mergeSort
        [projectPaper (itemRel 0.6 "a") 2020 2025 1 false "",
          projectPaper (itemRel 1.8 "b") 2020 2025 1 false "",
          projectPaper (itemRel 1.8 "c") 2020 2025 1 false ""] scoreGe) = _
    norm_num [List.mergeSort, List.merge, List.splitInTwo, List.splitAt,
      List.splitAt.go, scoreGe, projectPaper, final_score, citation_score,
      recency_score, normalize, itemRel, pyround, roundHalfEven]

/-- C3 is false as stated: for the raw item published in 2019 and the
requested window 2020-2025 the recency denominator is 5 (non-zero), yet the
recency component is -1/5, outside [0, 1]. -/
theorem C3_counterexample :
    recency_score itemEarly 2020 2025 = -1 / 5 ∧
    recency_score itemEarly 2020 2025 < 0 ∧
    (max (2025 - 2020) 1 : ℤ) = 5 := by
  norm_num [recency_score, normalize, itemEarly, max_def]

/-- C3 (amended): for every raw item and window, the citation component lies
in [0, 1] whenever the citation count is between 0 and the normalization
maximum, and the recency component lies in [0, 1] whenever the publication
year lies inside the requested window; the recency denominator is always at
least 1 (never zero or negative), the citation component is 0 when the batch
maximum is 0, and the recency component is 0 when the publication year is
falsy. -/
theorem C3_component_bounds (item : RawItem) (sy ey : ℤ) (mc : ℚ)
    (hc0 : 0 ≤ item.cited_by_count) (hcm : item.cited_by_count ≤ mc)
    (hy : item.publication_year = 0 ∨
      (sy ≤ item.publication_year ∧ item.publication_year ≤ ey)) :
    (0 ≤ citation_score item mc ∧ citation_score item mc ≤ 1) ∧
    (0 ≤ recency_score item sy ey ∧ recency_score item sy ey ≤ 1) ∧
    (1 : ℤ) ≤ max (ey - sy) 1 ∧
    (mc = 0 → citation_score item mc = 0) ∧
    (item.publication_year = 0 → recency_score item sy ey = 0) := by
  refine ⟨?_, ?_, le_max_right _ _, ?_, ?_⟩
  · by_cases hmc : mc = 0
    · simp [citation_score, hmc]
    · have hmcpos : 0 < mc := lt_of_le_of_ne (hc0.trans hcm) (Ne.symm hmc)
      by_cases hv : item.cited_by_count = 0
      · simp [citation_score, hmc, normalize, hv]
      · have : citation_score item mc = item.cited_by_count / mc := by
          simp [citation_score, hmc, normalize, hv]
        rw [this]
        exact ⟨div_nonneg hc0 hmcpos.le, (div_le_one hmcpos).mpr hcm⟩
  · by_cases hz : item.publication_year = 0
    · simp [recency_score, hz]
    · rcases hy with hy | ⟨h1, h2⟩
      · exact absurd hy hz
      · have hR : (1 : ℤ) ≤ max (ey - sy) 1 := le_max_right _ _
        by_cases hv : ((item.publication_year : ℚ) - (sy : ℚ)) = 0
        · simp [recency_score, hz, normalize, hv]
        · have hRpos : (0 : ℚ) < ((max (ey - sy) 1 : ℤ) : ℚ) := by
            exact_mod_cast lt_of_lt_of_le Int.zero_lt_one hR
          have hRne : ((max (ey - sy) 1 : ℤ) : ℚ) ≠ 0 := ne_of_gt hRpos
          have heq : recency_score item sy ey =
              ((item.publication_year : ℚ) - (sy : ℚ)) / ((max (ey - sy) 1 : ℤ) : ℚ) := by
            simp only [recency_score, if_pos hz, normalize]
            rw [if_neg (not_or.mpr ⟨hv, hRne⟩)]
          rw [heq]
          have hnum0 : (0 : ℚ) ≤ (item.publication_year : ℚ) - (sy : ℚ) := by
            have : (sy : ℚ) ≤ (item.publication_year : ℚ) := by exact_mod_cast h1
            linarith
          have hnumR : (item.publication_year : ℚ) - (sy : ℚ) ≤ ((max (ey - sy) 1 : ℤ) : ℚ) := by
            have hle : item.publication_year - sy ≤ max (ey - sy) 1 :=
              le_trans (by omega) (le_max_left _ _)
            exact_mod_cast hle
          exact ⟨div_nonneg hnum0 hRpos.le, (div_le_one hRpos).mpr hnumR⟩
  · intro hmc
    simp [citation_score, hmc]
  · intro hz
    simp [recency_score, hz]

/-- C3 witness: the amended bounds instantiated at a concrete item (year
2021, 10 citations) in the window 2020-2025 with batch maximum 40. -/
theorem C3_component_bounds_witness :
    (0 ≤ citation_score itemMid 40 ∧ citation_score itemMid 40 ≤ 1) ∧
    (0 ≤ recency_score itemMid 2020 2025 ∧ recency_score itemMid 2020 2025 ≤ 1) ∧
    (1 : ℤ) ≤ max (2025 - 2020) 1 ∧
    ((40 : ℚ) = 0 → citation_score itemMid 40 = 0) ∧
    (itemMid.publication_year = 0 → recency_score itemMid 2020 2025 = 0) :=
  C3_component_bounds itemMid 2020 2025 40 (by norm_num [itemMid])
    (by norm_num [itemMid]) (Or.inr (by norm_num [itemMid]))

/-- C4: reconstruction of an empty or absent inverted index yields the empty
string; for every inverted index whose flattening is non-empty, whose words
are space-free, and whose positions are pairwise distinct, re-splitting the
reconstruction on spaces yields exactly the words of the flattened pairs
sorted by strictly ascending position (a permutation of the input
occurrences); the concrete index word -> positions of hello/world
reconstructs to "hello world". -/
theorem C4_reconstruct_abstract :
    reconstruct_abstract none = [] ∧
    reconstruct_abstract (some []) = [] ∧
    (∀ inv : InvIndex,
      wordPositions inv ≠ [] →
      (∀ w ps, (w, ps) ∈ inv → ' ' ∉ w) →
      (wordPositions inv).Pairwise (fun a b => a.1 ≠ b.1) →
      splitChar ' ' (reconstruct_abstract (some inv)) =
        ((wordPositions inv).mergeSort pairLe).map Prod.snd ∧
      ((wordPositions inv).mergeSort pairLe).Pairwise (fun a b => a.1 < b.1) ∧
      ((wordPositions inv).mergeSort pairLe).Perm (wordPositions inv)) ∧
    reconstruct_abstract
        (some [(['w', 'o', 'r', 'l', 'd'], [1]), (['h', 'e', 'l', 'l', 'o'], [0])]) =
      "hello world".data := by
  refine ⟨rfl, rfl, ?_, ?_⟩
  · intro inv hne hsp hdist
    have hperm := List.mergeSort_perm (wordPositions inv) pairLe
    have hsorted := List.sorted_mergeSort pairLe_trans pairLe_total (wordPositions inv)
    have hinv : inv ≠ [] := by
      intro e
      rw [e] at hne
      exact hne rfl
    have hmsne : (wordPositions inv).mergeSort pairLe ≠ [] := by
      intro e
      rw [e] at hperm
      exact hne hperm.symm.eq_nil
    have hrec : reconstruct_abstract (some inv) =
        joinWith [' '] (((wordPositions inv).mergeSort pairLe).map Prod.snd) := by
      simp [reconstruct_abstract, hinv]
    refine ⟨?_, ?_, hperm⟩
    · rw [hrec]
      apply splitChar_joinWith
      · simpa using hmsne
      · intro w hwm
        simp only [List.mem_map] at hwm
        obtain ⟨p, hp, rfl⟩ := hwm
        have hpL : p ∈ wordPositions inv := hperm.mem_iff.mp hp
        simp only [wordPositions, List.mem_flatMap, List.mem_map] at hpL
        obtain ⟨⟨w', ps⟩, hin, pos, hpos, rfl⟩ := hpL
        exact hsp w' ps hin
    · have hne2 : ((wordPositions inv).mergeSort pairLe).Pairwise
          (fun a b => a.1 ≠ b.1) :=
        (hperm.pairwise_iff fun h => Ne.symm h).mpr hdist
      refine (hsorted.and hne2).imp ?_
      rintro a b ⟨hle, hfst⟩
      have : pairLe a b = true := hle
      rw [pairLe] at this
      rw [if_neg hfst] at this
      exact of_decide_eq_true this
  · norm_num [reconstruct_abstract, wordPositions, joinWith, List.mergeSort,
      List.merge, List.splitInTwo, List.splitAt, List.splitAt.go, pairLe, lexLe]
    intro h
    simp at h

/-- C5 is false as stated: the raw item with six concepts scored
0.1, 0.9, 0.9, 0.9, 0.9, 0.9 has five qualifying concepts (score > 0.3),
yet the projection returns only 4 entries, because the code truncates to the
first five concepts before filtering. -/
theorem C5_counterexample :
    (extract_concepts itemSixConcepts 5).length = 4 ∧
    ((itemSixConcepts.concepts.getD []).filter fun c =>
      decide (0.3 < c.score.getD 0)).length = 5 := by
  constructor <;>
    norm_num [extract_concepts, itemSixConcepts, projConcept, List.filter]

/-- C5 (amended): concept projection truncates to the first 5 concepts and
then keeps only those with confidence above 0.3, each entry carrying its
name and its confidence rounded to 2 decimals; the result has at most 5
entries, and every returned entry stems from one of the first five concepts
with confidence above 0.3. -/
theorem C5_concepts_projection :
    (∀ item : RawItem, (extract_concepts item 5).length ≤ 5) ∧
    (∀ item : RawItem, ∀ e ∈ extract_concepts item 5,
      ∃ c ∈ (item.concepts.getD []).take 5,
        0.3 < c.score.getD 0 ∧ e = projConcept c) ∧
    (∀ item : RawItem, extract_concepts item 5 =
      (((item.concepts.getD []).take 5).filter fun c =>
        decide (0.3 < c.score.getD 0)).map projConcept) := by
  refine ⟨?_, ?_, fun item => rfl⟩
  · intro item
    calc (extract_concepts item 5).length
        = (((item.concepts.getD []).take 5).filter fun c =>
            decide (0.3 < c.score.getD 0)).length := by
          simp [extract_concepts]
      _ ≤ ((item.concepts.getD []).take 5).length := List.length_filter_le _ _
      _ ≤ 5 := by simp
  · intro item e he
    simp only [extract_concepts, List.mem_map, List.mem_filter] at he
    obtain ⟨c, ⟨hc1, hc2⟩, hc3⟩ := he
    exact ⟨c, hc1, by simpa using hc2, hc3.symm⟩

/-- C6: the projector degrades a missing nested object to its defaults —
a missing source yields "Unknown Journal"/"Unknown Publisher", and every
item whose open_access value is not literally null projects to a record —
but, contradicting the defensive-parsing policy the claim states, a present
null open_access value makes the projection raise (AttributeError on
None.get) instead of degrading to the defaults. -/
theorem C6_defensive_projection :
    build_paper_result itemNullOA 2020 2025 1 =
      .error "AttributeError: NoneType object has no attribute get" ∧
    safe_journal_info itemNoSource = ("Unknown Journal", "Unknown Publisher") ∧
    (∀ (item : RawItem) (sy ey : ℤ) (mc : ℚ), item.open_access ≠ some none →
      ∃ p, build_paper_result item sy ey mc = .ok p) := by
  refine ⟨rfl, rfl, ?_⟩
  intro item sy ey mc h
  match hoa : item.open_access with
  | none =>
    refine ⟨projectPaper item sy ey mc false "", ?_⟩
    have h1 : openAccess_is_oa item = .ok false := by
      rw [openAccess_is_oa, hoa]
    have h2 : openAccess_oa_url item = .ok "" := by
      rw [openAccess_oa_url, hoa]
    rw [build_paper_result, h1, h2]
    rfl
  | some none => exact absurd hoa h
  | some (some oa) =>
    refine ⟨projectPaper item sy ey mc (oa.is_oa.getD false) (oa.oa_url.getD ""), ?_⟩
    have h1 : openAccess_is_oa item = .ok (oa.is_oa.getD false) := by
      rw [openAccess_is_oa, hoa]
    have h2 : openAccess_oa_url item = .ok (oa.oa_url.getD "") := by
      rw [openAccess_oa_url, hoa]
    rw [build_paper_result, h1, h2]
    rfl

/-- C7: in AUTO mode, per-call selection picks the local provider iff the
probe of the model-listing endpoint succeeds and the configured model name
appears in the returned list when both sides are compared with their
colon-suffixed tags stripped; otherwise the remote provider iff a remote
credential is configured; otherwise none — in particular, local unreachable
with no credential selects none. -/
theorem C7_auto_mode_selection :
    ∀ (openai_api_key ollama_model : String) (probe : Option (List String)),
      (get_active_llm_provider "auto" openai_api_key ollama_model probe = some "ollama" ↔
        ∃ names, probe = some names ∧ stripTag ollama_model ∈ names.map stripTag) ∧
      (get_active_llm_provider "auto" openai_api_key ollama_model probe = some "openai" ↔
        check_ollama_available ollama_model probe = false ∧ openai_api_key ≠ "") ∧
      (get_active_llm_provider "auto" openai_api_key ollama_model probe = none ↔
        check_ollama_available ollama_model probe = false ∧ openai_api_key = "") ∧
      (probe = none → openai_api_key = "" →
        get_active_llm_provider "auto" openai_api_key ollama_model probe = none) := by
  intro key model probe
  have hcheck : check_ollama_available model probe = true ↔
      ∃ names, probe = some names ∧ stripTag model ∈ names.map stripTag := by
    cases probe with
    | none => simp [check_ollama_available]
    | some names => simp [check_ollama_available, List.contains, List.elem_iff]
  have hmain : get_active_llm_provider "auto" key model probe =
      if check_ollama_available model probe then some "ollama"
      else if key ≠ "" then some "openai" else none := by
    simp [get_active_llm_provider]
  cases hc : check_ollama_available model probe with
  | true =>
    refine ⟨?_, ?_, ?_, ?_⟩
    · rw [hmain, hc]
      exact iff_of_true (by simp) (hcheck.mp hc)
    · rw [hmain, hc]
      simp [hc]
    · rw [hmain, hc]
      simp [hc]
    · rintro rfl
      simp [check_ollama_available] at hc
  | false =>
    have hnot : ¬∃ names, probe = some names ∧ stripTag model ∈ names.map stripTag := by
      intro h
      rw [← hcheck] at h
      simp [hc] at h
    refine ⟨?_, ?_, ?_, ?_⟩
    · rw [hmain, hc]
      exact iff_of_false (by by_cases hk : key = "" <;> simp [hk]) hnot
    · rw [hmain, hc]
      by_cases hk : key = "" <;> simp [hk, hc]
    · rw [hmain, hc]
      by_cases hk : key = "" <;> simp [hk, hc]
    · intro _ hk
      rw [hmain, hc]
      simp [hk]

/-- C8: normalize returns 0 whenever either argument is falsy (absent/None
or zero) and the ratio value/max_value otherwise; normalize(0, X) = 0,
normalize(X, 0) = 0, and normalize(5, 10) = 1/2. -/
theorem C8_normalize_spec :
    (∀ v m : Option ℚ, (v = none ∨ v = some 0 ∨ m = none ∨ m = some 0) →
      normalize v m = 0) ∧
    (∀ a b : ℚ, a ≠ 0 → b ≠ 0 → normalize (some a) (some b) = a / b) ∧
    (∀ x : Option ℚ, normalize (some 0) x = 0 ∧ normalize x (some 0) = 0) ∧
    normalize (some 5) (some 10) = 1 / 2 := by
  refine ⟨?_, ?_, ?_, ?_⟩
  · rintro v m (rfl | rfl | rfl | rfl)
    · cases m <;> rfl
    · cases m <;> simp [normalize]
    · cases v <;> rfl
    · cases v <;> simp [normalize]
  · intro a b ha hb
    simp [normalize, ha, hb]
  · intro x
    constructor
    · cases x <;> simp [normalize]
    · cases x <;> simp [normalize]
  · norm_num [normalize]

/-- C9: the projected author list never exceeds 6 entries, and whenever the
raw authorship count k exceeds the cap of 5 the last entry is the synthetic
"+(k-5) more" placeholder with empty id and orcid; the concrete item with 7
named authors projects to 6 entries, the last being "+2 more". -/
theorem C9_author_projection :
    (∀ item : RawItem, (extract_authors item 5).length ≤ 6) ∧
    (∀ item : RawItem, 5 < (item.authorships.getD []).length →
      (extract_authors item 5).getLast? = some
        ⟨"+" ++ toString ((item.authorships.getD []).length - 5) ++ " more", "", ""⟩) ∧
    (extract_authors item7Authors 5).length = 6 ∧
    (extract_authors item7Authors 5).getLast? = some ⟨"+2 more", "", ""⟩ := by
  refine ⟨?_, ?_, ?_, ?_⟩
  · intro item
    simp only [extract_authors]
    split
    · rw [List.length_append]
      have h1 := List.length_filterMap_le
        (fun a : Authorship =>
          match (a.author.getD {}).display_name with
          | some name =>
            if name = "" then none
            else some (⟨name, (a.author.getD {}).id.getD "",
              (a.author.getD {}).orcid.getD ""⟩ : AuthorOut)
          | none => none)
        ((item.authorships.getD []).take 5)
      have h2 : ((item.authorships.getD []).take 5).length ≤ 5 :=
        by simp
      simp only [List.length_cons, List.length_nil]
      omega
    · have h1 := List.length_filterMap_le
        (fun a : Authorship =>
          match (a.author.getD {}).display_name with
          | some name =>
            if name = "" then none
            else some (⟨name, (a.author.getD {}).id.getD "",
              (a.author.getD {}).orcid.getD ""⟩ : AuthorOut)
          | none => none)
        ((item.authorships.getD []).take 5)
      have h2 : ((item.authorships.getD []).take 5).length ≤ 5 :=
        by simp
      omega
  · intro item h
    simp only [extract_authors, if_pos h]
    exact List.getLast?_concat _
  · decide
  · decide

/-- C10: both citation formatters drop every author whose display name
contains the substring "more" — not only the synthetic overflow
placeholder: the genuine author "Seymore Papert" is silently dropped from
both the APA and the BibTeX rendering. -/
theorem C10_more_substring_filter :
    (∀ (authors : List AuthorOut) (a : AuthorOut), a ∈ authors →
      pyIn "more" a.name = true → a.name ∉ citedAuthorNames authors) ∧
    pyIn "more" "Seymore Papert" = true ∧
    citedAuthorNames paperSeymore.authors = ["Alan Kay"] ∧
    format_apa paperSeymore = "Alan Kay (1980). Mindstorms. *J*." ∧
    format_bibtex paperSeymore =
      "@article\x7bMindstorms,\n  title = \x7bMindstorms\x7d,\n  author = \x7bAlan Kay\x7d,\n  journal = \x7bJ\x7d,\n  year = \x7b1980\x7d,\n  doi = \x7b\x7d,\n  publisher = \x7bP\x7d\n\x7d\n" := by
  refine ⟨?_, by decide, by decide, by decide, by decide⟩
  intro authors a ha hmore hmem
  simp only [citedAuthorNames, List.mem_map, List.mem_filter] at hmem
  obtain ⟨b, ⟨hb1, hb2⟩, hb3⟩ := hmem
  rw [Bool.and_eq_true, Bool.not_eq_true'] at hb2
  rw [hb3, hmore] at hb2
  simp at hb2

end ScholarAI
